import Mathlib

/-!
A shallow embedding of the core of `src/kilo.c` (a small terminal text
editor): the row store with its render projection, the single-pass syntax
highlighter, the incremental search callback with its highlight save/restore
protocol, the newline split / backspace merge operations, and the escape
sequence key decoder.

Modelling conventions, shared by every definition below:

* C `char *` text is a `List Char`; machine `int`s that can go negative in
  the source (`at`, `cx`, `cy`, `last_match`, `direction`, key codes) are
  `Int`, indices that are only ever used non-negatively are `Nat`.
* A row's highlight array `unsigned char *hl` is a `List (Option HL)`:
  `some h` is a byte the program has written, `none` is a byte obtained from
  `realloc` that has never been written (uninitialised memory).  `realloc`
  preserves the prefix of the old allocation and leaves fresh bytes
  uninitialised, which is exactly what `reallocHl` does.
* `memcpy` / `memset` / `memmove` on arrays become the corresponding pure
  list surgeries (`List.take`/`List.drop`/`List.set`).
* The search prompt's function-pointer callback is inlined as
  `editorFindCallback`, the only callback `editorFind` ever installs.
-/

/-- `enum editorHighlight { HL_NORMAL = 0, HL_NUMBER, HL_MATCH }`. -/
inductive HL where
  | HL_NORMAL : HL
  | HL_NUMBER : HL
  | HL_MATCH : HL
deriving DecidableEq

/-- `#define KILO_TAB_STOP 8`. -/
def KILO_TAB_STOP : Nat := 8

/-- `ARROW_LEFT = 1000` in `enum editorKey`. -/
def ARROW_LEFT : Int := 1000

/-- `ARROW_RIGHT` in `enum editorKey`. -/
def ARROW_RIGHT : Int := 1001

/-- `ARROW_UP` in `enum editorKey`. -/
def ARROW_UP : Int := 1002

/-- `ARROW_DOWN` in `enum editorKey`. -/
def ARROW_DOWN : Int := 1003

/-- `DEL_KEY` in `enum editorKey`. -/
def DEL_KEY : Int := 1004

/-- `HOME_KEY` in `enum editorKey`. -/
def HOME_KEY : Int := 1005

/-- `END_KEY` in `enum editorKey`. -/
def END_KEY : Int := 1006

/-- `PAGE_UP` in `enum editorKey`. -/
def PAGE_UP : Int := 1007

/-- `PAGE_DOWN` in `enum editorKey`. -/
def PAGE_DOWN : Int := 1008

/-- `BACKSPACE = 127` in `enum editorKey`. -/
def BACKSPACE : Int := 127

/-- C `isdigit` on the ASCII characters this program feeds it. -/
def isdigit (c : Char) : Bool := decide ('0' ≤ c) && decide (c ≤ '9')

/-- C `isspace`: space, tab, newline, vertical tab, form feed, carriage return. -/
def isspace (c : Char) : Bool :=
  c == ' ' || c == '\t' || c == '\n' || c == '\x0b' || c == '\x0c' || c == '\r'

/-- C `iscntrl`: control characters 0..31 and 127 (on byte values). -/
def iscntrl (c : Int) : Bool := (decide (0 ≤ c) && decide (c < 32)) || c == 127

/-- `is_seperator` (kilo.c line 286): whitespace, NUL, or one of the fixed
separator characters (comma, dot, parens, plus, minus, slash, ampersand,
equals, tilde, percent, angle brackets, square brackets, semicolon). -/
def is_seperator (c : Char) : Bool :=
  isspace c || c == '\x00' ||
    ([',', '.', '(', ')', '+', '-', '/', '&', '=', '~', '%', '<', '>', '[', ']', ';'].contains c)

/-- One `erow`: the logical characters, the tab-expanded render, and the
per-render-glyph highlight bytes (see the conventions above for `Option`). -/
structure Erow where
  chars : List Char
  render : List Char
  hl : List (Option HL)
deriving DecidableEq

instance : Inhabited Erow := ⟨⟨[], [], []⟩⟩

/-- The fields of `struct editorConfig` the core operations touch. -/
structure EState where
  cx : Int
  cy : Int
  rx : Int
  rowoff : Int
  coloff : Int
  screenrows : Int
  screencols : Int
  rows : List Erow
  dirty : Nat
deriving DecidableEq

/-- The static locals of `editorFindCallback`: `last_match`, `direction`,
and the `(saved_hl_line, saved_hl)` snapshot (`none` when `saved_hl == NULL`). -/
structure FindState where
  last_match : Int
  direction : Int
  saved : Option (Nat × List (Option HL))
deriving DecidableEq

/-- The render loop body of `editorUpdateRow`: a tab emits one space and then
pads with spaces until the render index is a multiple of `KILO_TAB_STOP`;
every other character is copied verbatim.  `idx` is the current render index. -/
def renderLoop : List Char → Nat → List Char
  | [], _ => []
  | c :: cs, idx =>
    if c = '\t' then
      let pad := KILO_TAB_STOP - idx % KILO_TAB_STOP
      List.replicate pad ' ' ++ renderLoop cs (idx + pad)
    else
      c :: renderLoop cs (idx + 1)

/-- The render array `editorUpdateRow` builds from a row's `chars`. -/
def renderChars (chars : List Char) : List Char := renderLoop chars 0

/-- `realloc(row->hl, row->rsize)`: the old bytes survive up to the new size,
any grown tail is uninitialised. -/
def reallocHl (oldHl : List (Option HL)) (rsize : Nat) : List (Option HL) :=
  oldHl.take rsize ++ List.replicate (rsize - oldHl.length) none

/-- `memset(row->hl, HL_NORMAL, row->size)`: overwrite the first `size` bytes
(note: `size`, not `rsize` — kilo.c line 292 really passes `row->size`). -/
def memsetNormal : List (Option HL) → Nat → List (Option HL)
  | l, 0 => l
  | [], _ + 1 => []
  | _ :: rest, n + 1 => some HL.HL_NORMAL :: memsetNormal rest n

/-- The classification loop of `editorUpdateSyntax` (lines 297–310): walk the
render glyphs; a digit whose predecessor was a separator or was classified
`HL_NUMBER` is written as `HL_NUMBER` (and `prev_sep` becomes 0); any other
glyph leaves its highlight byte untouched and updates `prev_sep`.
`prevHl` is the value the previous iteration left in `hl[i-1]`
(`HL_NORMAL` when `i == 0`, as in the C ternary). -/
def updateSyntaxLoop : List Char → List (Option HL) → Bool → Option HL → List (Option HL)
  | [], _, _, _ => []
  | c :: cs, hls, prevSep, prevHl =>
    if isdigit c && (prevSep || prevHl == some HL.HL_NUMBER) then
      some HL.HL_NUMBER :: updateSyntaxLoop cs hls.tail false (some HL.HL_NUMBER)
    else
      hls.headD none :: updateSyntaxLoop cs hls.tail (is_seperator c) (hls.headD none)

/-- `editorUpdateSyntax` (kilo.c lines 290–311): realloc the highlight array
to the render size, memset the first `size` (sic) bytes to `HL_NORMAL`, then
run the classification pass with `prev_sep` seeded to 1. -/
def editorUpdateSyntax (oldHl : List (Option HL)) (render : List Char) (size : Nat) :
    List (Option HL) :=
  updateSyntaxLoop render (memsetNormal (reallocHl oldHl render.length) size) true
    (some HL.HL_NORMAL)

/-- `editorUpdateRow`: recompute `render`/`rsize` from `chars` and then call
`editorUpdateSyntax` on the (realloc'd) old highlight array. -/
def editorUpdateRow (row : Erow) : Erow :=
  let render := renderChars row.chars
  { row with render := render, hl := editorUpdateSyntax row.hl render row.chars.length }

/-- Row construction inside `editorInsertRow`: copy the text, start with
`render = NULL`, `hl = NULL`, then `editorUpdateRow`. -/
def mkRowFromChars (text : List Char) : Erow :=
  editorUpdateRow { chars := text, render := [], hl := [] }

/-- The body of the `editorRowCxToRx` loop for one character: a tab advances
`rx` to the next tab stop, then every character advances it by one. -/
def rxStep (rx : Nat) (c : Char) : Nat :=
  if c = '\t' then rx + ((KILO_TAB_STOP - 1) - rx % KILO_TAB_STOP) + 1 else rx + 1

/-- `editorRowCxToRx` (lines 326–337): fold the per-character advance over
the first `cx` characters of the row. -/
def editorRowCxToRx (row : Erow) (cx : Nat) : Nat :=
  (row.chars.take cx).foldl rxStep 0

/-- The loop of `editorRowRxToCx`: accumulate `cur_rx` with the same advance
and return the first `cx` whose accumulated render index exceeds `rx`;
falling off the end returns the row length. -/
def rxToCxAux (rx : Nat) : List Char → Nat → Nat → Nat
  | [], _, cx => cx
  | c :: rest, cur_rx, cx =>
    let cur' := rxStep cur_rx c
    if rx < cur' then cx else rxToCxAux rx rest cur' (cx + 1)

/-- `editorRowRxToCx` (lines 339–351). -/
def editorRowRxToCx (row : Erow) (rx : Nat) : Nat := rxToCxAux rx row.chars 0 0

/-- `memmove`-style insertion at index `n ≤ l.length` (used by
`editorInsertRow` and `editorRowInsertChar`). -/
def insertAt (l : List α) (n : Nat) (a : α) : List α :=
  l.take n ++ a :: l.drop n

/-- `memmove`-style deletion of index `n < l.length` (used by `editorDelRow`
and `editorRowDelChar`). -/
def eraseAt (l : List α) (n : Nat) : List α :=
  l.take n ++ l.drop (n + 1)

/-- `editorInsertRow` (lines 385–408): out-of-range `at` returns without
doing anything; otherwise the new row is inserted at `at`, `numrows` grows
and the buffer is dirtied. -/
def editorInsertRow (E : EState) (a : Int) (text : List Char) : EState :=
  if a < 0 ∨ a > (E.rows.length : Int) then E
  else
    { E with
      rows := insertAt E.rows a.toNat (mkRowFromChars text)
      dirty := E.dirty + 1 }

/-- `editorDelRow` (lines 416–423): out-of-range `at` is a no-op. -/
def editorDelRow (E : EState) (a : Int) : EState :=
  if a < 0 ∨ a ≥ (E.rows.length : Int) then E
  else
    { E with
      rows := eraseAt E.rows a.toNat
      dirty := E.dirty + 1 }

/-- `editorRowInsertChar` on row `i` of the buffer: an invalid `at` is
clamped to the end of the line; the row is re-rendered and re-highlighted
and the buffer dirtied. -/
def editorRowInsertChar (E : EState) (i : Nat) (a : Int) (c : Char) : EState :=
  let row := E.rows.getD i default
  let a' := if a < 0 ∨ a > (row.chars.length : Int) then (row.chars.length : Int) else a
  { E with
    rows := E.rows.set i (editorUpdateRow { row with chars := insertAt row.chars a'.toNat c })
    dirty := E.dirty + 1 }

/-- `editorRowDelChar` on row `i`: out-of-range `at` is a no-op (no dirty). -/
def editorRowDelChar (E : EState) (i : Nat) (a : Int) : EState :=
  let row := E.rows.getD i default
  if a < 0 ∨ a ≥ (row.chars.length : Int) then E
  else
    { E with
      rows := E.rows.set i (editorUpdateRow { row with chars := eraseAt row.chars a.toNat })
      dirty := E.dirty + 1 }

/-- `editorRowAppendString` on row `i`. -/
def editorRowAppendString (E : EState) (i : Nat) (s : List Char) : EState :=
  let row := E.rows.getD i default
  { E with
    rows := E.rows.set i (editorUpdateRow { row with chars := row.chars ++ s })
    dirty := E.dirty + 1 }

/-- `editorInsertNewline` (lines 473–487): at column 0 insert an empty row
above; otherwise insert a new row below holding the suffix from the cursor
and truncate the current row to the prefix.  Either way the cursor moves to
the next row, column 0. -/
def editorInsertNewline (E : EState) : EState :=
  let E' :=
    if E.cx = 0 then editorInsertRow E E.cy []
    else
      let row := E.rows.getD E.cy.toNat default
      let E1 := editorInsertRow E (E.cy + 1) (row.chars.drop E.cx.toNat)
      let row1 := E1.rows.getD E.cy.toNat default
      { E1 with
        rows :=
          E1.rows.set E.cy.toNat
            (editorUpdateRow { row1 with chars := row1.chars.take E.cx.toNat }) }
  { E' with cy := E'.cy + 1, cx := 0 }

/-- `editorDelChar` (lines 489–508): no-op past end of file or at the very
start of the file; with `cx > 0` delete the character left of the cursor;
at column 0 merge the row into the previous one (cursor lands at the
previous row's old end). -/
def editorDelChar (E : EState) : EState :=
  if E.cy = (E.rows.length : Int) then E
  else if E.cx = 0 ∧ E.cy = 0 then E
  else if E.cx > 0 then
    let E1 := editorRowDelChar E E.cy.toNat (E.cx - 1)
    { E1 with cx := E1.cx - 1 }
  else
    let row := E.rows.getD E.cy.toNat default
    let prevSize := (E.rows.getD (E.cy.toNat - 1) default).chars.length
    let E1 := editorRowAppendString { E with cx := (prevSize : Int) } (E.cy.toNat - 1) row.chars
    let E2 := editorDelRow E1 E.cy
    { E2 with cy := E2.cy - 1 }

/-- `strstr(row->render, query)` as the first offset at which `query` is a
prefix of the rest of the haystack (`some 0` for the empty query, as in C). -/
def strstrIdx (hay needle : List Char) : Option Nat :=
  (List.range (hay.length + 1)).find? (fun i => needle.isPrefixOf (hay.drop i))

/-- The circular wrap of the scan loop: `-1` wraps to `numrows - 1` and
`numrows` wraps to `0`. -/
def wrapCandidate (numrows : Nat) (c : Int) : Int :=
  if c = -1 then (numrows : Int) - 1
  else if c = (numrows : Int) then 0
  else c

/-- The scan loop of `editorFindCallback` (lines 617–644), with the loop
counter `i < numrows` as fuel: advance `current` by `direction`, wrap, and
stop at the first row whose render contains the query, returning that row
index and the match offset. -/
def findScan (rows : List Erow) (query : List Char) :
    Nat → Int → Int → Option (Nat × Nat)
  | 0, _, _ => none
  | fuel + 1, current, direction =>
    match strstrIdx
        (rows.getD (wrapCandidate rows.length (current + direction)).toNat default).render
        query with
    | some off => some ((wrapCandidate rows.length (current + direction)).toNat, off)
    | none =>
      findScan rows query fuel (wrapCandidate rows.length (current + direction)) direction

/-- The candidate row indices the scan loop visits, in order (the same
recursion as `findScan` with the match test stripped out). -/
def findCandidates (numrows : Nat) : Nat → Int → Int → List Int
  | 0, _, _ => []
  | fuel + 1, current, direction =>
    wrapCandidate numrows (current + direction) ::
      findCandidates numrows fuel (wrapCandidate numrows (current + direction)) direction

/-- First match over an explicit candidate list (used to relate `findScan`
to `findCandidates`). -/
def findFirstMatch (rows : List Erow) (query : List Char) (cands : List Int) :
    Option (Nat × Nat) :=
  cands.findSome? fun c =>
    (strstrIdx (rows.getD c.toNat default).render query).map fun off => (c.toNat, off)

/-- The key dispatch of `editorFindCallback` (lines 599–613) after the
enter/escape case: arrow keys set the direction, anything else resets
`last_match` and the direction; then `last_match == -1` forces a forward
scan. -/
def findKeyUpdate (fs : FindState) (key : Int) : FindState :=
  let fs1 :=
    if key = ARROW_RIGHT ∨ key = ARROW_DOWN then { fs with direction := 1 }
    else if key = ARROW_LEFT ∨ key = ARROW_UP then { fs with direction := -1 }
    else { fs with last_match := -1, direction := 1 }
  if fs1.last_match = -1 then { fs1 with direction := 1 } else fs1

/-- The snapshot-restore prologue of `editorFindCallback` (lines 593–597):
if a saved highlight exists, `memcpy` it back over the first `rsize` bytes
of its row's highlight array, free it and clear the static. -/
def hlRestore (E : EState) (fs : FindState) : EState × FindState :=
  match fs.saved with
  | none => (E, fs)
  | some (line, snap) =>
    let row := E.rows.getD line default
    let newHl := snap.take row.render.length ++ row.hl.drop row.render.length
    ({ E with rows := E.rows.set line { row with hl := newHl } },
     { fs with saved := none })

/-- `memset(&row->hl[off], HL_MATCH, strlen(query))`: overwrite `len`
highlight bytes starting at `off` (the match always lies inside the render,
so the write stays inside the array). -/
def setMatchRange : List (Option HL) → Nat → Nat → List (Option HL)
  | [], _, _ => []
  | l, 0, 0 => l
  | _ :: rest, 0, len + 1 => some HL.HL_MATCH :: setMatchRange rest 0 len
  | v :: rest, off + 1, len => v :: setMatchRange rest off len

/-- `editorFindCallback` (lines 585–645): restore any saved highlight; on
enter/escape reset the statics and return; otherwise update direction /
`last_match` from the key and scan.  On a match: remember it, move the
cursor there (char index via `editorRowRxToCx`), force a scroll, snapshot
the row's highlight bytes and paint the matched span `HL_MATCH`. -/
def editorFindCallback (E0 : EState) (fs0 : FindState) (query : List Char) (key : Int) :
    EState × FindState :=
  let Efs := hlRestore E0 fs0
  let E := Efs.1
  let fs := Efs.2
  if key = 13 ∨ key = 27 then
    (E, { fs with last_match := -1, direction := 1 })
  else
    let fs3 := findKeyUpdate fs key
    match findScan E.rows query E.rows.length fs3.last_match fs3.direction with
    | none => (E, fs3)
    | some (cur, off) =>
      let row := E.rows.getD cur default
      ({ E with
          cy := (cur : Int)
          cx := (editorRowRxToCx row off : Int)
          rowoff := (E.rows.length : Int)
          rows := E.rows.set cur { row with hl := setMatchRange row.hl off query.length } },
       { fs3 with last_match := (cur : Int), saved := some (cur, row.hl) })

/-- `editorScroll` (lines 698–719). -/
def editorScroll (E : EState) : EState :=
  let rx :=
    if E.cy < (E.rows.length : Int) then
      (editorRowCxToRx (E.rows.getD E.cy.toNat default) E.cx.toNat : Int)
    else 0
  let rowoff := if E.cy < E.rowoff then E.cy else E.rowoff
  let rowoff := if E.cy ≥ rowoff + E.screenrows then E.cy - E.screenrows + 1 else rowoff
  let coloff := if rx < E.coloff then rx else E.coloff
  let coloff := if rx ≥ coloff + E.screencols then rx - E.screencols + 1 else coloff
  { E with rx := rx, rowoff := rowoff, coloff := coloff }

/-- The outcome of one `editorPrompt` session: `some (some q)` when enter
confirmed query `q`, `some none` when escape cancelled, `none` when the
supplied key list ran out with the prompt still open. -/
abbrev PromptOutcome := Option (Option (List Char))

/-- The `editorPrompt` loop (lines 875–918) specialised to the search
callback, driven by a list of decoded keys: refresh (hence scroll), read a
key, edit the draft query, and invoke the callback with the updated draft
and the key.  Escape cancels (returns NULL), enter confirms. -/
def editorPrompt : EState → FindState → List Char → List Int →
    EState × FindState × PromptOutcome
  | E, fs, _, [] => (editorScroll E, fs, none)
  | E, fs, buf, c :: rest =>
    let E := editorScroll E
    if c = DEL_KEY ∨ c = 8 ∨ c = BACKSPACE then
      let buf' := buf.dropLast
      let r := editorFindCallback E fs buf' c
      editorPrompt r.1 r.2 buf' rest
    else if c = 27 then
      let r := editorFindCallback E fs buf c
      (r.1, r.2, some none)
    else if c = 13 then
      let r := editorFindCallback E fs buf c
      (r.1, r.2, some (some buf))
    else if iscntrl c = false ∧ c < 128 then
      let buf' := buf ++ [Char.ofNat c.toNat]
      let r := editorFindCallback E fs buf' c
      editorPrompt r.1 r.2 buf' rest
    else
      let r := editorFindCallback E fs buf c
      editorPrompt r.1 r.2 buf rest

/-- `editorFind` (lines 650–667): save the cursor and the viewport offsets,
run the prompt, and restore them exactly when the prompt was cancelled. -/
def editorFind (E : EState) (fs : FindState) (keys : List Int) : EState :=
  let r := editorPrompt E fs [] keys
  match r.2.2 with
  | some none =>
    { r.1 with cx := E.cx, cy := E.cy, coloff := E.coloff, rowoff := E.rowoff }
  | _ => r.1

/-- `editorReadKey` (lines 172–238): the first byte `c` has been read (the
initial read retries until a byte arrives); `rest` is what further reads of
the escape sequence can still deliver before timing out. -/
def editorReadKey (c : Char) (rest : List Char) : Int :=
  if c = '\x1b' then
    match rest with
    | [] => 27
    | [_] => 27
    | s0 :: s1 :: rest2 =>
      if s0 = '[' then
        if '0' ≤ s1 ∧ s1 ≤ '9' then
          match rest2 with
          | [] => 27
          | s2 :: _ =>
            if s2 = '~' then
              if s1 = '1' then HOME_KEY
              else if s1 = '3' then DEL_KEY
              else if s1 = '4' then END_KEY
              else if s1 = '5' then PAGE_UP
              else if s1 = '6' then PAGE_DOWN
              else if s1 = '7' then HOME_KEY
              else if s1 = '8' then END_KEY
              else 27
            else 27
        else
          if s1 = 'A' then ARROW_UP
          else if s1 = 'B' then ARROW_DOWN
          else if s1 = 'C' then ARROW_RIGHT
          else if s1 = 'D' then ARROW_LEFT
          else if s1 = 'H' then HOME_KEY
          else if s1 = 'F' then END_KEY
          else 27
      else if s0 = 'O' then
        if s1 = 'H' then HOME_KEY
        else if s1 = 'F' then END_KEY
        else 27
      else 27
  else (c.toNat : Int)

/-- The first candidate row index a scan step examines, given the post-key
statics: one `direction` step from `last_match`, circularly wrapped. -/
def findFirstCandidate (n : Nat) (lm dir : Int) : Int := wrapCandidate n (lm + dir)

/-- A highlight array carries (search) match coloring somewhere. -/
def HasMatchHl (hl : List (Option HL)) : Prop := some HL.HL_MATCH ∈ hl

instance (hl : List (Option HL)) : Decidable (HasMatchHl hl) :=
  inferInstanceAs (Decidable (some HL.HL_MATCH ∈ hl))

/-- Row well-formedness the program maintains: the highlight array has one
byte per render glyph. -/
def RowsWF (rows : List Erow) : Prop :=
  ∀ i, i < rows.length →
    (rows.getD i default).hl.length = (rows.getD i default).render.length

/-- The state invariant of a search session, between callback invocations:
rows are well-formed, `direction` is ±1, `last_match` is -1 or a valid row
index, and the highlight bookkeeping is consistent — with no saved snapshot
no row carries MATCH bytes; with a saved snapshot `(line, snap)` only row
`line` may carry them, `snap` is MATCH-free and exactly as long as that
row's highlight array. -/
def searchInv (E : EState) (fs : FindState) : Prop :=
  RowsWF E.rows ∧
  (fs.direction = 1 ∨ fs.direction = -1) ∧
  (fs.last_match = -1 ∨
    (0 ≤ fs.last_match ∧ fs.last_match < (E.rows.length : Int))) ∧
  (fs.saved = none →
    ∀ i, i < E.rows.length → ¬ HasMatchHl (E.rows.getD i default).hl) ∧
  (∀ line snap, fs.saved = some (line, snap) →
    line < E.rows.length ∧
    snap.length = (E.rows.getD line default).hl.length ∧
    ¬ HasMatchHl snap ∧
    ∀ i, i < E.rows.length → i ≠ line → ¬ HasMatchHl (E.rows.getD i default).hl)

/-- At most one row of the buffer carries MATCH highlight bytes. -/
def atMostOneMatchRow (rows : List Erow) : Prop :=
  ∀ i j, i < rows.length → j < rows.length →
    HasMatchHl (rows.getD i default).hl → HasMatchHl (rows.getD j default).hl → i = j

/-- `editorInsertNewline` followed by `editorDelChar` (split at the cursor,
then backspace-merge the freshly created row into its predecessor). -/
def splitMerge (E : EState) : EState := editorDelChar (editorInsertNewline E)

/-! ### Concrete states used by witnesses and counterexamples -/

/-- An editor state with no rows (as right after `initEditor`). -/
def emptyEState : EState :=
  { cx := 0, cy := 0, rx := 0, rowoff := 0, coloff := 0, screenrows := 24,
    screencols := 80, rows := [], dirty := 0 }

/-- A one-row buffer holding the line `a`. -/
def oneRowState : EState :=
  { emptyEState with rows := [mkRowFromChars ['a']] }

/-- A two-row buffer holding `x` and `y`, cursor on the second row. -/
def twoRowState : EState :=
  { emptyEState with rows := [mkRowFromChars ['x'], mkRowFromChars ['y']], cy := 1 }

/-- A one-row buffer holding the line with a leading tab, `"\t1"`. -/
def tabRowState : EState :=
  { emptyEState with rows := [mkRowFromChars ['\t', '1']] }

/-- The search statics right after program start / session reset. -/
def fsInit : FindState := { last_match := -1, direction := 1, saved := none }

/-- A one-row buffer holding `hi` with the cursor between the two letters. -/
def midCursorState : EState :=
  { emptyEState with rows := [mkRowFromChars ['h', 'i']], cy := 0, cx := 1 }

/-! ### Render projection: the char-to-render round trip (claim C4) -/

theorem rxStep_lt (r : Nat) (c : Char) : r < rxStep r c := by
  unfold rxStep KILO_TAB_STOP
  split <;> omega

theorem foldl_rxStep_le (l : List Char) : ∀ r : Nat, r ≤ l.foldl rxStep r := by
  induction l with
  | nil => intro r; exact Nat.le_refl r
  | cons c cs ih =>
    intro r
    exact Nat.le_trans (Nat.le_of_lt (rxStep_lt r c)) (ih (rxStep r c))

theorem rxToCxAux_foldl (l : List Char) :
    ∀ cx : Nat, cx ≤ l.length → ∀ r k : Nat,
      rxToCxAux ((l.take cx).foldl rxStep r) l r k = k + cx := by
  induction l with
  | nil =>
    intro cx hcx r k
    have : cx = 0 := by simpa using hcx
    subst this
    rfl
  | cons c cs ih =>
    intro cx hcx r k
    cases cx with
    | zero =>
      show rxToCxAux r (c :: cs) r k = k + 0
      unfold rxToCxAux
      rw [if_pos (rxStep_lt r c)]
      rfl
    | succ m =>
      have hm : m ≤ cs.length := by simpa using hcx
      have hfold : ((c :: cs).take (m + 1)).foldl rxStep r =
          (cs.take m).foldl rxStep (rxStep r c) := rfl
      rw [hfold]
      unfold rxToCxAux
      rw [if_neg (Nat.not_lt.2 (foldl_rxStep_le (cs.take m) (rxStep r c)))]
      rw [ih m hm (rxStep r c) (k + 1)]
      omega

/-- Claim C4: for every row (tabs included) and every char index
`cx ≤ row.size`, `editorRowRxToCx row (editorRowCxToRx row cx) = cx` — the
char-to-render projection round-trips exactly through its inverse. -/
theorem claim_C4 (row : Erow) (cx : Nat) (h : cx ≤ row.chars.length) :
    editorRowRxToCx row (editorRowCxToRx row cx) = cx := by
  unfold editorRowRxToCx editorRowCxToRx
  simpa using rxToCxAux_foldl row.chars cx h 0 0

/-- Witness for C4 at the concrete row `"a\tb"` and `cx = 3`. -/
theorem claim_C4_witness :
    3 ≤ (Erow.mk ['a', '\t', 'b'] [] []).chars.length ∧
    editorRowRxToCx (Erow.mk ['a', '\t', 'b'] [] [])
      (editorRowCxToRx (Erow.mk ['a', '\t', 'b'] [] []) 3) = 3 :=
  ⟨by decide, claim_C4 (Erow.mk ['a', '\t', 'b'] [] []) 3 (by decide)⟩

/-! ### Highlighter on the row `b12` (claim C5) -/

/-- Counterexample to claim C5 as stated: in the freshly created row `b12`
the glyph `2` (render index 2) is NOT classified `HL_NUMBER` — its
predecessor `1` was left `HL_NORMAL` and `1` is not a separator, so the
digit condition fails for `2` as well. -/
theorem claim_C5_counterexample :
    ¬ ((mkRowFromChars ['b', '1', '2']).hl.getD 2 none = some HL.HL_NUMBER) := by
  decide

/-- Claim C5 (amended): in the row `b12` NEITHER digit is classified
`HL_NUMBER`: the whole highlight array is `HL_NORMAL` (`1` is preceded by
the non-separator `b`, so it stays NORMAL, and `2` is then preceded by a
NORMAL non-separator as well). -/
theorem claim_C5_amended :
    (mkRowFromChars ['b', '1', '2']).hl =
      [some HL.HL_NORMAL, some HL.HL_NORMAL, some HL.HL_NORMAL] := by
  decide

/-! ### The memset(size)-vs-realloc(rsize) slip in editorUpdateSyntax
(claim C1) -/

/-- Claim C1 (code-bug evaluation): start from the row `"\t1"` (whose
recomputation left `HL_NUMBER` at render index 8) and insert `x` at char
index 1.  After the mandatory recomputation the glyph at render index 8 is
the non-digit `x`, yet its highlight byte still reads `HL_NUMBER`: the
`memset` clears only `row->size` bytes of the `row->rsize`-byte array, so
the stale `HL_NUMBER` survives — and it even propagates to the digit at
index 9 through the `prev_hl` rule. -/
theorem claim_C1_code_bug_eval :
    ((editorRowInsertChar tabRowState 0 1 'x').rows.getD 0 default).render.getD 8 ' ' = 'x' ∧
    isdigit 'x' = false ∧
    ((editorRowInsertChar tabRowState 0 1 'x').rows.getD 0 default).hl.getD 8 none =
      some HL.HL_NUMBER ∧
    ((editorRowInsertChar tabRowState 0 1 'x').rows.getD 0 default).hl.getD 9 none =
      some HL.HL_NUMBER := by
  decide

/-! ### Key decoder (claim C9) -/

theorem escLetterMem (s1 : Char) :
    (if s1 = 'A' then ARROW_UP
      else if s1 = 'B' then ARROW_DOWN
      else if s1 = 'C' then ARROW_RIGHT
      else if s1 = 'D' then ARROW_LEFT
      else if s1 = 'H' then HOME_KEY
      else if s1 = 'F' then END_KEY
      else 27) ∈
    ([ARROW_UP, ARROW_DOWN, ARROW_RIGHT, ARROW_LEFT, HOME_KEY, END_KEY, DEL_KEY,
      PAGE_UP, PAGE_DOWN, 27] : List Int) := by
  split_ifs <;> decide

theorem escTildeMem (s1 : Char) :
    (if s1 = '1' then HOME_KEY
      else if s1 = '3' then DEL_KEY
      else if s1 = '4' then END_KEY
      else if s1 = '5' then PAGE_UP
      else if s1 = '6' then PAGE_DOWN
      else if s1 = '7' then HOME_KEY
      else if s1 = '8' then END_KEY
      else 27) ∈
    ([ARROW_UP, ARROW_DOWN, ARROW_RIGHT, ARROW_LEFT, HOME_KEY, END_KEY, DEL_KEY,
      PAGE_UP, PAGE_DOWN, 27] : List Int) := by
  split_ifs <;> decide

theorem escOMem (s1 : Char) :
    (if s1 = 'H' then HOME_KEY else if s1 = 'F' then END_KEY else 27) ∈
    ([ARROW_UP, ARROW_DOWN, ARROW_RIGHT, ARROW_LEFT, HOME_KEY, END_KEY, DEL_KEY,
      PAGE_UP, PAGE_DOWN, 27] : List Int) := by
  split_ifs <;> decide

/-- Claim C9: `ESC [ C` decodes to arrow-right and `ESC [ 3 ~` to Delete;
EVERY read that times out mid-sequence (nothing after `ESC`, nothing after
`ESC` plus any first byte, nothing after `ESC [ digit`) and EVERY escape
sequence not in the decoding table (a first byte other than `[` or `O`, an
unrecognized letter after `[`, an unrecognized letter after `O`, a digit
followed by a non-`~` terminator, and a digit outside the `~` table such as
`ESC [ 9 ~`) decode to a literal ESC (byte 27); every escape read decodes to
a named key or ESC — never an error; and any non-escape byte passes through
as itself. -/
theorem claim_C9 :
    editorReadKey '\x1b' ['[', 'C'] = ARROW_RIGHT ∧
    editorReadKey '\x1b' ['[', '3', '~'] = DEL_KEY ∧
    editorReadKey '\x1b' ['[', '9', '~'] = 27 ∧
    editorReadKey '\x1b' [] = 27 ∧
    (∀ s0 : Char, editorReadKey '\x1b' [s0] = 27) ∧
    (∀ d : Char, '0' ≤ d → d ≤ '9' → editorReadKey '\x1b' ['[', d] = 27) ∧
    (∀ (s0 s1 : Char) (rest2 : List Char), s0 ≠ '[' → s0 ≠ 'O' →
      editorReadKey '\x1b' (s0 :: s1 :: rest2) = 27) ∧
    (∀ (s1 : Char) (rest2 : List Char), ¬ ('0' ≤ s1 ∧ s1 ≤ '9') →
      s1 ≠ 'A' → s1 ≠ 'B' → s1 ≠ 'C' → s1 ≠ 'D' → s1 ≠ 'H' → s1 ≠ 'F' →
      editorReadKey '\x1b' ('[' :: s1 :: rest2) = 27) ∧
    (∀ (s1 : Char) (rest2 : List Char), s1 ≠ 'H' → s1 ≠ 'F' →
      editorReadKey '\x1b' ('O' :: s1 :: rest2) = 27) ∧
    (∀ (s1 s2 : Char) (rest3 : List Char), '0' ≤ s1 → s1 ≤ '9' → s2 ≠ '~' →
      editorReadKey '\x1b' ('[' :: s1 :: s2 :: rest3) = 27) ∧
    (∀ (s1 : Char) (rest3 : List Char), '0' ≤ s1 → s1 ≤ '9' →
      s1 ≠ '1' → s1 ≠ '3' → s1 ≠ '4' → s1 ≠ '5' → s1 ≠ '6' → s1 ≠ '7' →
      s1 ≠ '8' → editorReadKey '\x1b' ('[' :: s1 :: '~' :: rest3) = 27) ∧
    (∀ rest : List Char, editorReadKey '\x1b' rest ∈
      ([ARROW_UP, ARROW_DOWN, ARROW_RIGHT, ARROW_LEFT, HOME_KEY, END_KEY,
        DEL_KEY, PAGE_UP, PAGE_DOWN, 27] : List Int)) ∧
    (∀ c : Char, c ≠ '\x1b' → ∀ rest : List Char,
      editorReadKey c rest = (c.toNat : Int)) := by
  refine ⟨by decide, by decide, by decide, by decide, fun s0 => rfl, ?_, ?_, ?_, ?_,
    ?_, ?_, ?_, ?_⟩
  · intro d h0 h9
    show editorReadKey '\x1b' ['[', d] = 27
    simp only [editorReadKey, if_true]
    rw [if_pos ⟨h0, h9⟩]
  · intro s0 s1 rest2 hb hO
    show editorReadKey '\x1b' (s0 :: s1 :: rest2) = 27
    simp only [editorReadKey, if_true]
    rw [if_neg hb, if_neg hO]
  · intro s1 rest2 hdig hA hB hC hD hH hF
    show editorReadKey '\x1b' ('[' :: s1 :: rest2) = 27
    simp only [editorReadKey, if_true]
    rw [if_neg hdig, if_neg hA, if_neg hB, if_neg hC, if_neg hD, if_neg hH, if_neg hF]
  · intro s1 rest2 hH hF
    show editorReadKey '\x1b' ('O' :: s1 :: rest2) = 27
    simp only [editorReadKey, if_true]
    rw [if_neg (show ¬ ('O' : Char) = '[' by decide), if_neg hH, if_neg hF]
  · intro s1 s2 rest3 h0 h9 hs2
    show editorReadKey '\x1b' ('[' :: s1 :: s2 :: rest3) = 27
    simp only [editorReadKey, if_true]
    rw [if_pos ⟨h0, h9⟩, if_neg hs2]
  · intro s1 rest3 h0 h9 h1 h3 h4 h5 h6 h7 h8
    show editorReadKey '\x1b' ('[' :: s1 :: '~' :: rest3) = 27
    simp only [editorReadKey, if_true]
    rw [if_pos ⟨h0, h9⟩, if_neg h1, if_neg h3, if_neg h4, if_neg h5,
      if_neg h6, if_neg h7, if_neg h8]
  · intro rest
    match rest with
    | [] =>
      show (27 : Int) ∈ ([ARROW_UP, ARROW_DOWN, ARROW_RIGHT, ARROW_LEFT, HOME_KEY,
        END_KEY, DEL_KEY, PAGE_UP, PAGE_DOWN, 27] : List Int)
      decide
    | [s0] =>
      show (27 : Int) ∈ ([ARROW_UP, ARROW_DOWN, ARROW_RIGHT, ARROW_LEFT, HOME_KEY,
        END_KEY, DEL_KEY, PAGE_UP, PAGE_DOWN, 27] : List Int)
      decide
    | s0 :: s1 :: rest2 =>
      cases rest2 with
      | nil =>
        simp only [editorReadKey, if_true]
        by_cases hb : s0 = '['
        · rw [if_pos hb]
          by_cases hdig : '0' ≤ s1 ∧ s1 ≤ '9'
          · rw [if_pos hdig]
            decide
          · rw [if_neg hdig]
            exact escLetterMem s1
        · rw [if_neg hb]
          by_cases hO : s0 = 'O'
          · rw [if_pos hO]
            exact escOMem s1
          · rw [if_neg hO]
            decide
      | cons s2 rest3 =>
        simp only [editorReadKey, if_true]
        by_cases hb : s0 = '['
        · rw [if_pos hb]
          by_cases hdig : '0' ≤ s1 ∧ s1 ≤ '9'
          · rw [if_pos hdig]
            by_cases hs2 : s2 = '~'
            · rw [if_pos hs2]
              exact escTildeMem s1
            · rw [if_neg hs2]
              decide
          · rw [if_neg hdig]
            exact escLetterMem s1
        · rw [if_neg hb]
          by_cases hO : s0 = 'O'
          · rw [if_pos hO]
            exact escOMem s1
          · rw [if_neg hO]
            decide
  · intro c hc rest
    unfold editorReadKey
    rw [if_neg hc]

/-- Witness for C9's universally quantified fallbacks at the concrete
sequences `ESC X y`, `ESC [ Z`, `ESC O X`, `ESC [ 5 X`, `ESC [ 0 ~`, a
timeout after the single byte `X`, and the plain byte `q`. -/
theorem claim_C9_witness :
    editorReadKey '\x1b' ['X', 'y'] = 27 ∧
    editorReadKey '\x1b' ['[', 'Z'] = 27 ∧
    editorReadKey '\x1b' ['O', 'X'] = 27 ∧
    editorReadKey '\x1b' ['[', '5', 'X'] = 27 ∧
    editorReadKey '\x1b' ['[', '0', '~'] = 27 ∧
    editorReadKey '\x1b' ['X'] = 27 ∧
    editorReadKey '\x1b' ['[', '5'] = 27 ∧
    editorReadKey 'q' [] = 113 :=
  ⟨claim_C9.2.2.2.2.2.2.1 'X' 'y' [] (by decide) (by decide),
   claim_C9.2.2.2.2.2.2.2.1 'Z' [] (by decide) (by decide) (by decide) (by decide)
     (by decide) (by decide) (by decide),
   claim_C9.2.2.2.2.2.2.2.2.1 'X' [] (by decide) (by decide),
   claim_C9.2.2.2.2.2.2.2.2.2.1 '5' 'X' [] (by decide) (by decide) (by decide),
   claim_C9.2.2.2.2.2.2.2.2.2.2.1 '0' [] (by decide) (by decide) (by decide)
     (by decide) (by decide) (by decide) (by decide) (by decide) (by decide),
   claim_C9.2.2.2.2.1 'X',
   claim_C9.2.2.2.2.2.1 '5' (by decide) (by decide),
   claim_C9.2.2.2.2.2.2.2.2.2.2.2.2 'q' (by decide) []⟩

/-! ### Pointwise descriptions of the memmove-style list surgeries -/

theorem insertAt_length {α : Type} {l : List α} {n : Nat} (h : n ≤ l.length) (a : α) :
    (insertAt l n a).length = l.length + 1 := by
  unfold insertAt
  simp
  omega

theorem eraseAt_length {α : Type} {l : List α} {n : Nat} (h : n < l.length) :
    (eraseAt l n).length = l.length - 1 := by
  unfold eraseAt
  simp
  omega

theorem insertAt_getElem? {α : Type} {l : List α} {n : Nat} (h : n ≤ l.length) (a : α)
    (i : Nat) :
    (insertAt l n a)[i]? =
      if i < n then l[i]? else if i = n then some a else l[i - 1]? := by
  unfold insertAt
  by_cases h1 : i < n
  · rw [if_pos h1, List.getElem?_append_left (by simp; omega),
      List.getElem?_take_of_lt h1]
  · rw [if_neg h1]
    have hlen : (l.take n).length = n := by simp; omega
    rw [List.getElem?_append_right (by omega)]
    rw [hlen]
    by_cases h2 : i = n
    · subst h2
      simp
    · rw [if_neg h2]
      obtain ⟨k, hk⟩ : ∃ k, i - n = k + 1 := ⟨i - n - 1, by omega⟩
      rw [hk, List.getElem?_cons_succ, List.getElem?_drop]
      congr 1
      omega

theorem eraseAt_getElem? {α : Type} {l : List α} {n : Nat} (h : n ≤ l.length) (i : Nat) :
    (eraseAt l n)[i]? = if i < n then l[i]? else l[i + 1]? := by
  unfold eraseAt
  by_cases h1 : i < n
  · rw [if_pos h1, List.getElem?_append_left (by simp; omega),
      List.getElem?_take_of_lt h1]
  · rw [if_neg h1]
    have hlen : (l.take n).length = n := by simp; omega
    rw [List.getElem?_append_right (by omega), hlen, List.getElem?_drop]
    congr 1
    omega

theorem mkRowFromChars_chars (text : List Char) : (mkRowFromChars text).chars = text := rfl

/-! ### editorInsertRow: no clamping, in-range insertion (claims C3) -/

/-- Counterexample to claim C3 as stated: `editorInsertRow` at the
out-of-range index `-1` does NOT insert a row at `clamp(-1,0,numrows) = 0`;
it returns without touching the buffer, so `numrows` does not grow (and the
buffer is not dirtied either). -/
theorem claim_C3_counterexample :
    ¬ ((editorInsertRow emptyEState (-1) ['a']).rows.length =
        emptyEState.rows.length + 1) := by
  decide

/-- Claim C3 (amended): `editorInsertRow(at, text)` with out-of-range `at`
(`at < 0` or `at > numrows`) is a no-op — there is no clamping; for in-range
`at` it inserts a new row holding `text` at position `at`, shifting the
following rows down, growing `numrows` by exactly 1 and marking the buffer
dirty. -/
theorem claim_C3_amended (E : EState) (a : Int) (text : List Char) :
    ((a < 0 ∨ a > (E.rows.length : Int)) → editorInsertRow E a text = E) ∧
    (0 ≤ a → a ≤ (E.rows.length : Int) →
      (editorInsertRow E a text).rows.length = E.rows.length + 1 ∧
      ((editorInsertRow E a text).rows.getD a.toNat default).chars = text ∧
      (editorInsertRow E a text).dirty = E.dirty + 1 ∧
      (∀ i : Nat, i < a.toNat →
        (editorInsertRow E a text).rows.getD i default = E.rows.getD i default) ∧
      (∀ i : Nat, a.toNat ≤ i → i < E.rows.length →
        (editorInsertRow E a text).rows.getD (i + 1) default = E.rows.getD i default)) := by
  constructor
  · intro hout
    unfold editorInsertRow
    rw [if_pos hout]
  · intro h0 hle
    have hna : a.toNat ≤ E.rows.length := by omega
    have hcond : ¬ (a < 0 ∨ a > (E.rows.length : Int)) := by omega
    unfold editorInsertRow
    rw [if_neg hcond]
    refine ⟨insertAt_length hna _, ?_, rfl, ?_, ?_⟩
    · rw [List.getD_eq_getElem?_getD, insertAt_getElem? hna _ a.toNat,
        if_neg (by omega), if_pos rfl]
      rfl
    · intro i hi
      rw [List.getD_eq_getElem?_getD, List.getD_eq_getElem?_getD,
        insertAt_getElem? hna _ i, if_pos hi]
    · intro i hge hlt
      rw [List.getD_eq_getElem?_getD, List.getD_eq_getElem?_getD,
        insertAt_getElem? hna _ (i + 1), if_neg (by omega), if_neg (by omega)]
      congr 1

/-- Witness for C3 (amended): inserting `z` at index 1 of the one-row buffer
grows it to two rows. -/
theorem claim_C3_witness :
    (0 ≤ (1 : Int)) ∧ ((1 : Int) ≤ (oneRowState.rows.length : Int)) ∧
    (editorInsertRow oneRowState 1 ['z']).rows.length = oneRowState.rows.length + 1 :=
  ⟨by decide, by decide,
    ((claim_C3_amended oneRowState 1 ['z']).2 (by decide) (by decide)).1⟩

/-! ### The scan order of editorFindCallback (claims C2, C10) -/

theorem findScan_eq_findFirstMatch (rows : List Erow) (q : List Char) :
    ∀ (fuel : Nat) (current direction : Int),
      findScan rows q fuel current direction =
        findFirstMatch rows q (findCandidates rows.length fuel current direction) := by
  intro fuel
  induction fuel with
  | zero => intro c d; rfl
  | succ m ih =>
    intro c d
    show (match strstrIdx (rows.getD (wrapCandidate rows.length (c + d)).toNat default).render q with
      | some off => some ((wrapCandidate rows.length (c + d)).toNat, off)
      | none => findScan rows q m (wrapCandidate rows.length (c + d)) d) =
      findFirstMatch rows q
        (wrapCandidate rows.length (c + d) ::
          findCandidates rows.length m (wrapCandidate rows.length (c + d)) d)
    unfold findFirstMatch
    rw [List.findSome?_cons]
    cases hm : strstrIdx (rows.getD (wrapCandidate rows.length (c + d)).toNat default).render q with
    | some off => rfl
    | none => exact ih (wrapCandidate rows.length (c + d)) d

theorem findCandidates_forward (n : Nat) :
    ∀ (fuel : Nat) (c : Int), -1 ≤ c → c + fuel < n →
      findCandidates n fuel c 1 = (List.range fuel).map (fun i : Nat => c + 1 + (i : Int)) := by
  intro fuel
  induction fuel with
  | zero => intro c _ _; rfl
  | succ m ih =>
    intro c hc hfuel
    have hne1 : c + 1 ≠ -1 := by omega
    have hnen : c + 1 ≠ (n : Int) := by push_cast at hfuel ⊢; omega
    have hwrap : wrapCandidate n (c + 1) = c + 1 := by
      unfold wrapCandidate
      rw [if_neg hne1, if_neg hnen]
    show wrapCandidate n (c + 1) :: findCandidates n m (wrapCandidate n (c + 1)) 1 =
      (List.range (m + 1)).map (fun i : Nat => c + 1 + (i : Int))
    rw [hwrap, ih (c + 1) (by omega) (by push_cast at hfuel ⊢; omega)]
    rw [List.range_succ_eq_map, List.map_cons, List.map_map]
    congr 1
    · simp
    · exact List.map_congr_left fun i _ => by
        show c + 1 + 1 + (i : Int) = c + 1 + ((i + 1 : Nat) : Int)
        push_cast
        ring

/-- Counterexample to claim C2 as stated: buffer `["x", "y"]`, cursor on row
1, `last_match` unset, empty query (which matches every row, so the first
candidate examined is the first match).  The claim predicts the scan starts
at the cursor row 1; the code starts at row 0 (`current = last_match = -1`
stepped by the forced forward direction), and indeed lands on row 0. -/
theorem claim_C2_counterexample :
    (editorFindCallback twoRowState fsInit [] 113).1.cy = 0 ∧ twoRowState.cy = 1 := by
  constructor
  · decide
  · rfl

/-- Claim C2 (amended): in a scan step with `last_match` unset the direction
is forced to forward and the scan does NOT begin from the cursor row: the
candidate rows examined are `0, 1, ..., numrows-1` in that order (start of
file; the wrap arithmetic `-1 -> numrows-1`, `numrows -> 0` is as described
but never fires on this path), and the scan returns the first candidate in
that order whose rendered text contains the query. -/
theorem claim_C2_amended (rows : List Erow) (q : List Char) :
    findCandidates rows.length rows.length (-1) 1 =
      (List.range rows.length).map (fun i : Nat => (i : Int)) ∧
    findScan rows q rows.length (-1) 1 =
      findFirstMatch rows q (findCandidates rows.length rows.length (-1) 1) := by
  constructor
  · rw [findCandidates_forward rows.length rows.length (-1) (by omega) (by omega)]
    exact List.map_congr_left fun i _ => by push_cast; ring
  · exact findScan_eq_findFirstMatch rows q rows.length (-1) 1

theorem strstrIdx_nil (hay : List Char) : strstrIdx hay [] = some 0 := by
  unfold strstrIdx
  rw [List.range_succ_eq_map, List.find?_cons_of_pos]
  simp

theorem editorRowRxToCx_zero (row : Erow) : editorRowRxToCx row 0 = 0 := by
  unfold editorRowRxToCx
  cases row.chars with
  | nil => rfl
  | cons c cs =>
    unfold rxToCxAux
    rw [if_pos (rxStep_lt 0 c)]

theorem hlRestore_rows_length (E : EState) (fs : FindState) :
    (hlRestore E fs).1.rows.length = E.rows.length := by
  cases hs : fs.saved with
  | none => simp [hlRestore, hs]
  | some p => simp [hlRestore, hs]

theorem hlRestore_last_match (E : EState) (fs : FindState) :
    (hlRestore E fs).2.last_match = fs.last_match := by
  cases hs : fs.saved with
  | none => simp [hlRestore, hs]
  | some p => simp [hlRestore, hs]

theorem hlRestore_direction (E : EState) (fs : FindState) :
    (hlRestore E fs).2.direction = fs.direction := by
  cases hs : fs.saved with
  | none => simp [hlRestore, hs]
  | some p => simp [hlRestore, hs]

theorem hlRestore_saved (E : EState) (fs : FindState) :
    (hlRestore E fs).2.saved = none ∨ (hlRestore E fs).2 = fs := by
  cases hs : fs.saved with
  | none => right; simp [hlRestore, hs]
  | some p => left; simp [hlRestore, hs]

theorem findKeyUpdate_cases (fs : FindState) (key : Int) :
    ((findKeyUpdate fs key).last_match = fs.last_match ∨
      (findKeyUpdate fs key).last_match = -1) ∧
    ((findKeyUpdate fs key).direction = 1 ∨ (findKeyUpdate fs key).direction = -1) ∧
    ((findKeyUpdate fs key).last_match = -1 → (findKeyUpdate fs key).direction = 1) ∧
    (findKeyUpdate fs key).saved = fs.saved := by
  unfold findKeyUpdate
  split_ifs <;> (try simp_all) <;> split_ifs <;> simp_all

theorem wrapCandidate_bounds (n : Nat) (lm dir : Int) (hn : 1 ≤ n)
    (hlm : lm = -1 ∨ (0 ≤ lm ∧ lm < (n : Int)))
    (hdir : dir = 1 ∨ dir = -1) (hforce : lm = -1 → dir = 1) :
    0 ≤ wrapCandidate n (lm + dir) ∧ wrapCandidate n (lm + dir) < (n : Int) := by
  unfold wrapCandidate
  split_ifs <;> omega

/-- `editorFindCallback` on enter/escape: restore, reset the statics, return. -/
theorem editorFindCallback_term (E0 : EState) (fs0 : FindState) (q : List Char)
    (key : Int) (hk : key = 13 ∨ key = 27) :
    editorFindCallback E0 fs0 q key =
      ((hlRestore E0 fs0).1,
        { (hlRestore E0 fs0).2 with last_match := -1, direction := 1 }) := by
  simp only [editorFindCallback]
  rw [if_pos hk]

/-- `editorFindCallback` on any other key, written as an explicit match on
the scan result. -/
theorem editorFindCallback_eq (E0 : EState) (fs0 : FindState) (q : List Char)
    (key : Int) (hk : ¬(key = 13 ∨ key = 27)) :
    editorFindCallback E0 fs0 q key =
      match findScan (hlRestore E0 fs0).1.rows q (hlRestore E0 fs0).1.rows.length
          (findKeyUpdate (hlRestore E0 fs0).2 key).last_match
          (findKeyUpdate (hlRestore E0 fs0).2 key).direction with
      | none => ((hlRestore E0 fs0).1, findKeyUpdate (hlRestore E0 fs0).2 key)
      | some (cur, off) =>
        ({ (hlRestore E0 fs0).1 with
            cy := (cur : Int)
            cx := (editorRowRxToCx ((hlRestore E0 fs0).1.rows.getD cur default) off : Int)
            rowoff := ((hlRestore E0 fs0).1.rows.length : Int)
            rows := (hlRestore E0 fs0).1.rows.set cur
              { (hlRestore E0 fs0).1.rows.getD cur default with
                  hl := setMatchRange ((hlRestore E0 fs0).1.rows.getD cur default).hl off
                    q.length } },
         { findKeyUpdate (hlRestore E0 fs0).2 key with
            last_match := (cur : Int)
            saved := some (cur, ((hlRestore E0 fs0).1.rows.getD cur default).hl) }) := by
  simp only [editorFindCallback]
  rw [if_neg hk]

/-- Claim C10: with at least one row in the buffer, a search-callback event
whose live query is empty and whose key is neither confirm (enter) nor
cancel (escape) finds a match on the very first candidate row of the scan
(the empty query is a prefix of every render at offset 0), so the cursor
moves to that candidate row with `cx = 0` and `last_match` is set to it;
the full-circle no-match exit is unreachable.  `fs.last_match` is assumed in
the range `-1 ≤ last_match < numrows` that the program maintains. -/
theorem claim_C10 (E : EState) (fs : FindState) (key : Int)
    (hn : 1 ≤ E.rows.length) (h13 : key ≠ 13) (h27 : key ≠ 27)
    (hlm : fs.last_match = -1 ∨
      (0 ≤ fs.last_match ∧ fs.last_match < (E.rows.length : Int))) :
    0 ≤ findFirstCandidate E.rows.length
        (findKeyUpdate (hlRestore E fs).2 key).last_match
        (findKeyUpdate (hlRestore E fs).2 key).direction ∧
    findFirstCandidate E.rows.length
        (findKeyUpdate (hlRestore E fs).2 key).last_match
        (findKeyUpdate (hlRestore E fs).2 key).direction < (E.rows.length : Int) ∧
    (editorFindCallback E fs [] key).1.cy =
      findFirstCandidate E.rows.length
        (findKeyUpdate (hlRestore E fs).2 key).last_match
        (findKeyUpdate (hlRestore E fs).2 key).direction ∧
    (editorFindCallback E fs [] key).1.cx = 0 ∧
    (editorFindCallback E fs [] key).2.last_match =
      findFirstCandidate E.rows.length
        (findKeyUpdate (hlRestore E fs).2 key).last_match
        (findKeyUpdate (hlRestore E fs).2 key).direction := by
  have hk : ¬(key = 13 ∨ key = 27) := by
    push_neg
    exact ⟨h13, h27⟩
  have hlen : (hlRestore E fs).1.rows.length = E.rows.length := hlRestore_rows_length E fs
  have hcases := findKeyUpdate_cases (hlRestore E fs).2 key
  have hlm3 : (findKeyUpdate (hlRestore E fs).2 key).last_match = -1 ∨
      (0 ≤ (findKeyUpdate (hlRestore E fs).2 key).last_match ∧
        (findKeyUpdate (hlRestore E fs).2 key).last_match < (E.rows.length : Int)) := by
    rcases hcases.1 with h | h
    · rw [h, hlRestore_last_match]
      exact hlm
    · left
      exact h
  have hb := wrapCandidate_bounds E.rows.length
    (findKeyUpdate (hlRestore E fs).2 key).last_match
    (findKeyUpdate (hlRestore E fs).2 key).direction hn hlm3 hcases.2.1 hcases.2.2.1
  obtain ⟨m, hm⟩ : ∃ m, (hlRestore E fs).1.rows.length = m + 1 :=
    ⟨(hlRestore E fs).1.rows.length - 1, by omega⟩
  have hwrapeq : wrapCandidate (hlRestore E fs).1.rows.length
      ((findKeyUpdate (hlRestore E fs).2 key).last_match +
        (findKeyUpdate (hlRestore E fs).2 key).direction) =
      findFirstCandidate E.rows.length
        (findKeyUpdate (hlRestore E fs).2 key).last_match
        (findKeyUpdate (hlRestore E fs).2 key).direction := by
    unfold findFirstCandidate
    rw [hlen]
  have hscan : findScan (hlRestore E fs).1.rows [] (hlRestore E fs).1.rows.length
      (findKeyUpdate (hlRestore E fs).2 key).last_match
      (findKeyUpdate (hlRestore E fs).2 key).direction =
      some ((findFirstCandidate E.rows.length
        (findKeyUpdate (hlRestore E fs).2 key).last_match
        (findKeyUpdate (hlRestore E fs).2 key).direction).toNat, 0) := by
    conv_lhs => rw [hm]
    unfold findScan
    simp only [strstrIdx_nil]
    rw [hwrapeq]
  have htn : (((findFirstCandidate E.rows.length
      (findKeyUpdate (hlRestore E fs).2 key).last_match
      (findKeyUpdate (hlRestore E fs).2 key).direction).toNat : Int)) =
      findFirstCandidate E.rows.length
        (findKeyUpdate (hlRestore E fs).2 key).last_match
        (findKeyUpdate (hlRestore E fs).2 key).direction :=
    Int.toNat_of_nonneg hb.1
  refine ⟨hb.1, hb.2, ?_, ?_, ?_⟩ <;>
    rw [editorFindCallback_eq E fs [] key hk] <;>
    simp only [hscan] <;>
    simp [htn, editorRowRxToCx_zero]

/-- Witness for C10: one-row buffer, fresh search statics, query-edit key
`q` (113): the cursor lands on the first candidate row with `cx = 0`. -/
theorem claim_C10_witness :
    1 ≤ oneRowState.rows.length ∧
    (editorFindCallback oneRowState fsInit [] 113).1.cx = 0 ∧
    (editorFindCallback oneRowState fsInit [] 113).1.cy =
      findFirstCandidate oneRowState.rows.length
        (findKeyUpdate (hlRestore oneRowState fsInit).2 113).last_match
        (findKeyUpdate (hlRestore oneRowState fsInit).2 113).direction :=
  ⟨by decide,
   (claim_C10 oneRowState fsInit 113 (by decide) (by decide) (by decide)
      (Or.inl rfl)).2.2.2.1,
   (claim_C10 oneRowState fsInit 113 (by decide) (by decide) (by decide)
      (Or.inl rfl)).2.2.1⟩

/-! ### Cancelling a search restores cursor and viewport (claim C8) -/

/-- Claim C8: whatever query edits and navigation happened during the
session, if the prompt session ends with the Cancel event (escape), the
final cursor `(cy, cx)` and viewport offsets `(rowoff, coloff)` equal their
values at session entry exactly — `editorFind` restores all four saved
fields on the NULL return. -/
theorem claim_C8 (E : EState) (fs : FindState) (keys : List Int)
    (h : (editorPrompt E fs [] keys).2.2 = some none) :
    (editorFind E fs keys).cx = E.cx ∧ (editorFind E fs keys).cy = E.cy ∧
    (editorFind E fs keys).coloff = E.coloff ∧
    (editorFind E fs keys).rowoff = E.rowoff := by
  simp [editorFind, h]

/-- Witness for C8: type `q`, then escape; the session is cancelled and the
cursor row is back where it started. -/
theorem claim_C8_witness :
    (editorPrompt oneRowState fsInit [] [113, 27]).2.2 = some none ∧
    (editorFind oneRowState fsInit [113, 27]).cy = oneRowState.cy :=
  ⟨by decide, (claim_C8 oneRowState fsInit [113, 27] (by decide)).2.1⟩

/-! ### The highlighter never invents MATCH bytes (claim C6, part 3) -/

theorem mem_of_mem_tail_hl {a : Option HL} {l : List (Option HL)} (h : a ∈ l.tail) :
    a ∈ l := by
  cases l with
  | nil => simp at h
  | cons x xs => exact List.mem_cons_of_mem x h

theorem updateSyntaxLoop_no_match :
    ∀ (cs : List Char) (hls : List (Option HL)) (prevSep : Bool) (prevHl : Option HL),
      some HL.HL_MATCH ∈ updateSyntaxLoop cs hls prevSep prevHl →
      some HL.HL_MATCH ∈ hls := by
  intro cs
  induction cs with
  | nil => intro hls ps ph h; simp [updateSyntaxLoop] at h
  | cons c rest ih =>
    intro hls ps ph h
    unfold updateSyntaxLoop at h
    by_cases hcond : (isdigit c && (ps || ph == some HL.HL_NUMBER)) = true
    · rw [if_pos hcond] at h
      rcases List.mem_cons.1 h with h1 | h2
      · exact absurd h1 (by decide)
      · exact mem_of_mem_tail_hl (ih _ _ _ h2)
    · rw [if_neg hcond] at h
      rcases List.mem_cons.1 h with h1 | h2
      · cases hls with
        | nil => simp at h1
        | cons x xs =>
          rw [show (x :: xs).headD none = x from rfl] at h1
          rw [h1]
          exact List.mem_cons_self x xs
      · exact mem_of_mem_tail_hl (ih _ _ _ h2)

theorem memsetNormal_no_match :
    ∀ (l : List (Option HL)) (n : Nat),
      some HL.HL_MATCH ∈ memsetNormal l n → some HL.HL_MATCH ∈ l := by
  intro l
  induction l with
  | nil =>
    intro n h
    cases n <;> simp [memsetNormal] at h
  | cons x xs ih =>
    intro n h
    cases n with
    | zero => exact h
    | succ k =>
      have h2 : some HL.HL_MATCH ∈ memsetNormal xs k := by simpa [memsetNormal] using h
      exact List.mem_cons_of_mem x (ih k h2)

theorem reallocHl_no_match (l : List (Option HL)) (n : Nat)
    (h : some HL.HL_MATCH ∈ reallocHl l n) : some HL.HL_MATCH ∈ l := by
  unfold reallocHl at h
  rcases List.mem_append.1 h with h1 | h2
  · exact List.take_subset n l h1
  · exact absurd (List.eq_of_mem_replicate h2) (by decide)

/-- `editorUpdateSyntax` writes only `HL_NORMAL` and `HL_NUMBER`: any
`HL_MATCH` byte in its output was already present in the old array. -/
theorem editorUpdateSyntax_no_match (oldHl : List (Option HL)) (render : List Char)
    (size : Nat) (h : HasMatchHl (editorUpdateSyntax oldHl render size)) :
    HasMatchHl oldHl :=
  reallocHl_no_match oldHl render.length
    (memsetNormal_no_match _ size (updateSyntaxLoop_no_match _ _ _ _ h))

/-! ### Surgery helpers for rows and highlight arrays -/

theorem getD_set_self {α : Type} {l : List α} {i : Nat} (h : i < l.length) (a d : α) :
    (l.set i a).getD i d = a := by
  rw [List.getD_eq_getElem?_getD, List.getElem?_set_self h]
  rfl

theorem getD_set_ne {α : Type} {l : List α} {i j : Nat} (h : i ≠ j) (a d : α) :
    (l.set i a).getD j d = l.getD j d := by
  rw [List.getD_eq_getElem?_getD, List.getD_eq_getElem?_getD, List.getElem?_set_ne h]

theorem setMatchRange_length :
    ∀ (l : List (Option HL)) (off len : Nat), (setMatchRange l off len).length = l.length := by
  intro l
  induction l with
  | nil => intro off len; cases off <;> cases len <;> rfl
  | cons v rest ih =>
    intro off len
    cases off with
    | zero =>
      cases len with
      | zero => rfl
      | succ k =>
        show (some HL.HL_MATCH :: setMatchRange rest 0 k).length = (v :: rest).length
        simp [ih]
    | succ o =>
      show (v :: setMatchRange rest o len).length = (v :: rest).length
      simp [ih]

theorem hlRestore_saved_none (E : EState) (fs : FindState) :
    (hlRestore E fs).2.saved = none := by
  cases hs : fs.saved with
  | none => simp [hlRestore, hs]
  | some p => simp [hlRestore, hs]

/-- After the restore prologue, under the session invariant: rows stay
well-formed and no row of the buffer carries MATCH bytes any more. -/
theorem hlRestore_wf_nomatch (E : EState) (fs : FindState) (h : searchInv E fs) :
    RowsWF (hlRestore E fs).1.rows ∧
    ∀ i, i < (hlRestore E fs).1.rows.length →
      ¬ HasMatchHl ((hlRestore E fs).1.rows.getD i default).hl := by
  obtain ⟨hwf, _, _, hnone, hsome⟩ := h
  cases hs : fs.saved with
  | none =>
    constructor
    · simpa [hlRestore, hs] using hwf
    · simpa [hlRestore, hs] using hnone hs
  | some p =>
    obtain ⟨line, snap⟩ := p
    obtain ⟨hline, hsnaplen, hsnapnm, hother⟩ := hsome line snap hs
    have hhl : (E.rows.getD line default).hl.length =
        (E.rows.getD line default).render.length := hwf line hline
    have hnew : snap.take (E.rows.getD line default).render.length ++
        (E.rows.getD line default).hl.drop (E.rows.getD line default).render.length =
        snap := by
      rw [List.drop_eq_nil_of_le (by omega), List.take_of_length_le (by omega),
        List.append_nil]
    have hrows : (hlRestore E fs).1.rows =
        E.rows.set line { E.rows.getD line default with hl := snap } := by
      simp only [hlRestore, hs, hnew]
    constructor
    · intro i hi
      rw [hrows] at hi ⊢
      rw [List.length_set] at hi
      by_cases hil : i = line
      · subst hil
        rw [getD_set_self hi]
        show snap.length = (E.rows.getD i default).render.length
        omega
      · rw [getD_set_ne (fun hli => hil hli.symm)]
        exact hwf i hi
    · intro i hi
      rw [hrows] at hi ⊢
      rw [List.length_set] at hi
      by_cases hil : i = line
      · subst hil
        rw [getD_set_self hi]
        exact hsnapnm
      · rw [getD_set_ne (fun hli => hil hli.symm)]
        exact hother i hi hil

/-- A successful scan returns a valid row index. -/
theorem findScan_lt (rows : List Erow) (q : List Char) :
    ∀ (fuel : Nat) (current direction : Int),
      1 ≤ rows.length →
      (current = -1 ∨ (0 ≤ current ∧ current < (rows.length : Int))) →
      (direction = 1 ∨ direction = -1) → (current = -1 → direction = 1) →
      ∀ cur off, findScan rows q fuel current direction = some (cur, off) →
        cur < rows.length := by
  intro fuel
  induction fuel with
  | zero =>
    intro c d _ _ _ _ cur off h
    exact absurd h (by simp [findScan])
  | succ m ih =>
    intro c d hn hc hdir hforce cur off h
    have hb := wrapCandidate_bounds rows.length c d hn hc hdir hforce
    unfold findScan at h
    cases hm : strstrIdx
        (rows.getD (wrapCandidate rows.length (c + d)).toNat default).render q with
    | some o =>
      rw [hm] at h
      simp only [Option.some.injEq, Prod.mk.injEq] at h
      omega
    | none =>
      rw [hm] at h
      exact ih (wrapCandidate rows.length (c + d)) d hn (Or.inr ⟨hb.1, hb.2⟩) hdir
        (fun habs => absurd habs (by omega)) cur off h

/-- The session invariant forces at most one MATCH-carrying row. -/
theorem searchInv_atMostOne (E : EState) (fs : FindState) (h : searchInv E fs) :
    atMostOneMatchRow E.rows := by
  intro i j hi hj hmi hmj
  obtain ⟨_, _, _, hnone, hsome⟩ := h
  cases hs : fs.saved with
  | none => exact absurd hmi (hnone hs i hi)
  | some p =>
    obtain ⟨line, snap⟩ := p
    obtain ⟨_, _, _, hother⟩ := hsome line snap hs
    by_cases hil : i = line
    · by_cases hjl : j = line
      · rw [hil, hjl]
      · exact absurd hmj (hother j hj hjl)
    · exact absurd hmi (hother i hi hil)

/-- One callback invocation preserves the session invariant. -/
theorem searchInv_step (E : EState) (fs : FindState) (query : List Char) (key : Int)
    (h : searchInv E fs) :
    searchInv (editorFindCallback E fs query key).1
      (editorFindCallback E fs query key).2 := by
  have hlm0 := h.2.2.1
  obtain ⟨hwf', hnm'⟩ := hlRestore_wf_nomatch E fs h
  have hlen' : (hlRestore E fs).1.rows.length = E.rows.length := hlRestore_rows_length E fs
  by_cases hk : key = 13 ∨ key = 27
  · rw [editorFindCallback_term E fs query key hk]
    refine ⟨hwf', Or.inl rfl, Or.inl rfl, fun _ => hnm', fun line snap heq => ?_⟩
    rw [show ({ (hlRestore E fs).2 with last_match := -1, direction := 1 } :
        FindState).saved = (hlRestore E fs).2.saved from rfl,
      hlRestore_saved_none] at heq
    exact absurd heq (by simp)
  · rw [editorFindCallback_eq E fs query key hk]
    have hkc := findKeyUpdate_cases (hlRestore E fs).2 key
    have hsv3 : (findKeyUpdate (hlRestore E fs).2 key).saved = none := by
      rw [hkc.2.2.2, hlRestore_saved_none]
    have hlm3 : (findKeyUpdate (hlRestore E fs).2 key).last_match = -1 ∨
        (0 ≤ (findKeyUpdate (hlRestore E fs).2 key).last_match ∧
          (findKeyUpdate (hlRestore E fs).2 key).last_match < (E.rows.length : Int)) := by
      rcases hkc.1 with h1 | h1
      · rw [h1, hlRestore_last_match]
        exact hlm0
      · left
        exact h1
    cases hscan : findScan (hlRestore E fs).1.rows query (hlRestore E fs).1.rows.length
        (findKeyUpdate (hlRestore E fs).2 key).last_match
        (findKeyUpdate (hlRestore E fs).2 key).direction with
    | none =>
      simp only [hscan]
      refine ⟨hwf', hkc.2.1, ?_, fun _ => hnm', fun line snap heq => ?_⟩
      · rcases hlm3 with h1 | h1
        · left
          exact h1
        · right
          rw [hlen']
          exact h1
      · rw [hsv3] at heq
        exact absurd heq (by simp)
    | some p =>
      obtain ⟨cur, off⟩ := p
      simp only [hscan]
      have hn1 : 1 ≤ (hlRestore E fs).1.rows.length := by
        rcases Nat.eq_zero_or_pos (hlRestore E fs).1.rows.length with h0 | h1
        · rw [h0] at hscan
          exact absurd hscan (by simp [findScan])
        · exact h1
      have hlm3' : (findKeyUpdate (hlRestore E fs).2 key).last_match = -1 ∨
          (0 ≤ (findKeyUpdate (hlRestore E fs).2 key).last_match ∧
            (findKeyUpdate (hlRestore E fs).2 key).last_match <
              ((hlRestore E fs).1.rows.length : Int)) := by
        rcases hlm3 with h1 | h1
        · left
          exact h1
        · right
          rw [hlen']
          exact h1
      have hcur : cur < (hlRestore E fs).1.rows.length :=
        findScan_lt (hlRestore E fs).1.rows query (hlRestore E fs).1.rows.length
          (findKeyUpdate (hlRestore E fs).2 key).last_match
          (findKeyUpdate (hlRestore E fs).2 key).direction
          hn1 hlm3' hkc.2.1 hkc.2.2.1 cur off hscan
      refine ⟨?_, hkc.2.1, ?_, ?_, fun line snap heq => ?_⟩
      · intro i hi
        rw [List.length_set] at hi
        by_cases hic : i = cur
        · subst hic
          rw [getD_set_self hi]
          show (setMatchRange ((hlRestore E fs).1.rows.getD i default).hl off
              query.length).length =
            ((hlRestore E fs).1.rows.getD i default).render.length
          rw [setMatchRange_length]
          exact hwf' i hi
        · rw [getD_set_ne (fun hci => hic hci.symm)]
          exact hwf' i hi
      · right
        constructor
        · show (0 : Int) ≤ (cur : Int)
          omega
        · show ((cur : Int)) <
            (((hlRestore E fs).1.rows.set cur
              { (hlRestore E fs).1.rows.getD cur default with
                  hl := setMatchRange ((hlRestore E fs).1.rows.getD cur default).hl off
                    query.length }).length : Int)
          rw [List.length_set]
          omega
      · intro heq
        have heq2 : some (cur, ((hlRestore E fs).1.rows.getD cur default).hl) =
            (none : Option (Nat × List (Option HL))) := heq
        exact absurd heq2 (by simp)
      · have heq2 : some (cur, ((hlRestore E fs).1.rows.getD cur default).hl) =
            some (line, snap) := heq
        injection heq2 with heq1
        cases heq1
        refine ⟨?_, ?_, hnm' cur hcur, ?_⟩
        · show cur <
            ((hlRestore E fs).1.rows.set cur
              { (hlRestore E fs).1.rows.getD cur default with
                  hl := setMatchRange ((hlRestore E fs).1.rows.getD cur default).hl off
                    query.length }).length
          rw [List.length_set]
          exact hcur
        · show ((hlRestore E fs).1.rows.getD cur default).hl.length =
            (((hlRestore E fs).1.rows.set cur
              { (hlRestore E fs).1.rows.getD cur default with
                  hl := setMatchRange ((hlRestore E fs).1.rows.getD cur default).hl off
                    query.length }).getD cur default).hl.length
          rw [getD_set_self hcur]
          show ((hlRestore E fs).1.rows.getD cur default).hl.length =
            (setMatchRange ((hlRestore E fs).1.rows.getD cur default).hl off
              query.length).length
          rw [setMatchRange_length]
        · intro i hi hic
          rw [List.length_set] at hi
          rw [getD_set_ne (fun hci => hic hci.symm)]
          exact hnm' i hi

/-- Claim C6: under the session invariant, after any callback invocation
(scan step, query edit, confirm or cancel) the invariant still holds and at
most one row of the buffer carries unrestored MATCH highlight bytes; and the
blanket recomputation `editorUpdateSyntax` never assigns `HL_MATCH` (any
MATCH byte in its output was already in the old array), so MATCH entries
originate only from the search engine. -/
theorem claim_C6 (E : EState) (fs : FindState) (query : List Char) (key : Int)
    (h : searchInv E fs) :
    searchInv (editorFindCallback E fs query key).1
      (editorFindCallback E fs query key).2 ∧
    atMostOneMatchRow (editorFindCallback E fs query key).1.rows ∧
    (∀ (oldHl : List (Option HL)) (render : List Char) (size : Nat),
      HasMatchHl (editorUpdateSyntax oldHl render size) → HasMatchHl oldHl) :=
  have h' := searchInv_step E fs query key h
  ⟨h', searchInv_atMostOne _ _ h',
    fun oldHl render size hm => editorUpdateSyntax_no_match oldHl render size hm⟩

/-- Witness for C6: the fresh one-row state satisfies the invariant, and a
query-edit callback step keeps at most one MATCH-carrying row. -/
theorem claim_C6_witness :
    searchInv oneRowState fsInit ∧
    atMostOneMatchRow (editorFindCallback oneRowState fsInit ['a'] 113).1.rows := by
  have h : searchInv oneRowState fsInit := by
    refine ⟨?_, Or.inl rfl, Or.inl rfl, fun _ => ?_, fun line snap heq => ?_⟩
    · show ∀ i, i < oneRowState.rows.length →
        (oneRowState.rows.getD i default).hl.length =
          (oneRowState.rows.getD i default).render.length
      decide
    · decide
    · exact absurd heq (by simp [fsInit])
  exact ⟨h, (claim_C6 oneRowState fsInit ['a'] 113 h).2.1⟩

/-! ### Split-then-merge is an identity (claim C7) -/

theorem editorUpdateRow_chars (row : Erow) : (editorUpdateRow row).chars = row.chars := rfl

theorem getD_eq_of_getElem? {α : Type} {l : List α} {i : Nat} {a d : α}
    (h : l[i]? = some a) : l.getD i d = a := by
  rw [List.getD_eq_getElem?_getD, h]
  rfl

theorem splitMerge_zero (E : EState) (hcy0 : 0 ≤ E.cy)
    (hcy : E.cy < (E.rows.length : Int)) (hcx0eq : E.cx = 0) :
    (splitMerge E).rows.map Erow.chars = E.rows.map Erow.chars ∧
    (splitMerge E).rows.length = E.rows.length ∧
    (splitMerge E).cy = E.cy ∧ (splitMerge E).cx = E.cx := by
  have hcynlt : E.cy.toNat < E.rows.length := by omega
  have hcynle : E.cy.toNat ≤ E.rows.length := by omega
  have hL : (insertAt E.rows E.cy.toNat (mkRowFromChars [])).length = E.rows.length + 1 :=
    insertAt_length hcynle _
  have htn1 : (E.cy + 1).toNat = E.cy.toNat + 1 := by omega
  have hrowA : (insertAt E.rows E.cy.toNat (mkRowFromChars [])).getD (E.cy.toNat + 1) default
      = E.rows.getD E.cy.toNat default := by
    rw [List.getD_eq_getElem?_getD, List.getD_eq_getElem?_getD,
      insertAt_getElem? hcynle _ _, if_neg (by omega), if_neg (by omega)]
    simp
  have hrowB : (insertAt E.rows E.cy.toNat (mkRowFromChars [])).getD E.cy.toNat default
      = mkRowFromChars [] := by
    rw [List.getD_eq_getElem?_getD, insertAt_getElem? hcynle _ _, if_neg (by omega),
      if_pos rfl]
    rfl
  have hE1 : editorInsertNewline E =
      { E with
          rows := insertAt E.rows E.cy.toNat (mkRowFromChars [])
          dirty := E.dirty + 1
          cy := E.cy + 1
          cx := 0 } := by
    unfold editorInsertNewline editorInsertRow
    rw [if_pos hcx0eq, if_neg (by omega)]
  rw [show splitMerge E = editorDelChar (editorInsertNewline E) from rfl, hE1]
  simp only [editorDelChar, editorRowAppendString, editorDelRow]
  split_ifs with h1 h2 h3 h4
  · rw [hL] at h1
    push_cast at h1
    omega
  · omega
  · exact absurd h3 (by omega)
  · rw [List.length_set, hL] at h4
    push_cast at h4
    omega
  · simp only [htn1, Nat.add_sub_cancel, hrowA, hrowB, mkRowFromChars_chars,
      List.nil_append]
    refine ⟨?_, ?_, ?_, ?_⟩
    · apply List.ext_getElem?
      intro i
      simp only [List.getElem?_map]
      rw [eraseAt_getElem? (by rw [List.length_set, hL]; omega) i]
      by_cases hi1 : i < E.cy.toNat + 1
      · rw [if_pos hi1]
        by_cases hi2 : i = E.cy.toNat
        · subst hi2
          rw [List.getElem?_set_self (by rw [hL]; omega),
            List.getElem?_eq_getElem hcynlt,
            getD_eq_of_getElem? (List.getElem?_eq_getElem hcynlt)]
          simp [editorUpdateRow_chars]
        · rw [List.getElem?_set_ne (fun h => hi2 h.symm), insertAt_getElem? hcynle _ _,
            if_pos (by omega)]
      · rw [if_neg hi1]
        rw [List.getElem?_set_ne (show E.cy.toNat ≠ i + 1 by omega),
          insertAt_getElem? hcynle _ _, if_neg (by omega), if_neg (by omega)]
        congr 2
    · rw [eraseAt_length (by rw [List.length_set, hL]; omega), List.length_set, hL]
      omega
    · omega
    · rw [hcx0eq]
      rfl

theorem splitMerge_pos (E : EState) (hcy0 : 0 ≤ E.cy)
    (hcy : E.cy < (E.rows.length : Int)) (hcx0 : 0 < E.cx)
    (hcx : E.cx ≤ ((E.rows.getD E.cy.toNat default).chars.length : Int)) :
    (splitMerge E).rows.map Erow.chars = E.rows.map Erow.chars ∧
    (splitMerge E).rows.length = E.rows.length ∧
    (splitMerge E).cy = E.cy ∧ (splitMerge E).cx = E.cx := by
  have hcynlt : E.cy.toNat < E.rows.length := by omega
  have hcynle : E.cy.toNat + 1 ≤ E.rows.length := by omega
  have htn1 : (E.cy + 1).toNat = E.cy.toNat + 1 := by omega
  have hsl : E.cx.toNat ≤ (E.rows.getD E.cy.toNat default).chars.length := by omega
  have hE1 : editorInsertNewline E =
      { E with
          rows := (insertAt E.rows (E.cy + 1).toNat
              (mkRowFromChars
                ((E.rows.getD E.cy.toNat default).chars.drop E.cx.toNat))).set E.cy.toNat
            (editorUpdateRow
              { (insertAt E.rows (E.cy + 1).toNat
                  (mkRowFromChars
                    ((E.rows.getD E.cy.toNat default).chars.drop
                      E.cx.toNat))).getD E.cy.toNat default with
                  chars := ((insertAt E.rows (E.cy + 1).toNat
                    (mkRowFromChars
                      ((E.rows.getD E.cy.toNat default).chars.drop
                        E.cx.toNat))).getD E.cy.toNat default).chars.take E.cx.toNat })
          dirty := E.dirty + 1
          cy := E.cy + 1
          cx := 0 } := by
    simp only [editorInsertNewline, editorInsertRow]
    rw [if_neg (show ¬ E.cx = 0 by omega)]
    rw [if_neg (show ¬ (E.cy + 1 < 0 ∨ E.cy + 1 > (E.rows.length : Int)) by
      push_neg
      omega)]
  rw [htn1] at hE1
  have hgetL : (insertAt E.rows (E.cy.toNat + 1)
      (mkRowFromChars
        ((E.rows.getD E.cy.toNat default).chars.drop E.cx.toNat))).getD E.cy.toNat default =
      E.rows.getD E.cy.toNat default := by
    rw [List.getD_eq_getElem?_getD, insertAt_getElem? hcynle _ _, if_pos (by omega),
      ← List.getD_eq_getElem?_getD]
  rw [hgetL] at hE1
  have hLlen : (insertAt E.rows (E.cy.toNat + 1)
      (mkRowFromChars
        ((E.rows.getD E.cy.toNat default).chars.drop E.cx.toNat))).length =
      E.rows.length + 1 := insertAt_length hcynle _
  have hget2self : ∀ T : Erow, ((insertAt E.rows (E.cy.toNat + 1)
      (mkRowFromChars
        ((E.rows.getD E.cy.toNat default).chars.drop E.cx.toNat))).set E.cy.toNat
        T).getD E.cy.toNat default = T := by
    intro T
    exact getD_set_self (by rw [hLlen]; omega) T default
  have hget2other : ∀ T : Erow, ((insertAt E.rows (E.cy.toNat + 1)
      (mkRowFromChars
        ((E.rows.getD E.cy.toNat default).chars.drop E.cx.toNat))).set E.cy.toNat
        T).getD (E.cy.toNat + 1) default =
      mkRowFromChars ((E.rows.getD E.cy.toNat default).chars.drop E.cx.toNat) := by
    intro T
    rw [getD_set_ne (by omega) T default, List.getD_eq_getElem?_getD,
      insertAt_getElem? hcynle _ _, if_neg (by omega), if_pos rfl]
    rfl
  rw [show splitMerge E = editorDelChar (editorInsertNewline E) from rfl, hE1]
  simp only [editorDelChar, editorRowAppendString, editorDelRow]
  split_ifs with h1 h2 h3 h4
  · rw [List.length_set, hLlen] at h1
    push_cast at h1
    omega
  · omega
  · exact absurd h3 (by omega)
  · rw [List.length_set, List.length_set, hLlen] at h4
    push_cast at h4
    omega
  · simp only [htn1, Nat.add_sub_cancel, hget2self, hget2other, mkRowFromChars_chars,
      editorUpdateRow_chars, List.set_set]
    refine ⟨?_, ?_, ?_, ?_⟩
    · apply List.ext_getElem?
      intro i
      simp only [List.getElem?_map]
      rw [eraseAt_getElem? (by rw [List.length_set, hLlen]; omega) i]
      by_cases hi1 : i < E.cy.toNat + 1
      · rw [if_pos hi1]
        by_cases hi2 : i = E.cy.toNat
        · subst hi2
          rw [List.getElem?_set_self (by rw [hLlen]; omega),
            List.getElem?_eq_getElem hcynlt,
            getD_eq_of_getElem? (List.getElem?_eq_getElem hcynlt)]
          simp [editorUpdateRow_chars, List.take_append_drop]
        · rw [List.getElem?_set_ne (fun h => hi2 h.symm), insertAt_getElem? hcynle _ _,
            if_pos (by omega)]
      · rw [if_neg hi1]
        rw [List.getElem?_set_ne (show E.cy.toNat ≠ i + 1 by omega),
          insertAt_getElem? hcynle _ _, if_neg (by omega), if_neg (by omega)]
        congr 2
    · rw [eraseAt_length (by rw [List.length_set, hLlen]; omega), List.length_set, hLlen]
      omega
    · omega
    · rw [List.length_take]
      omega

/-- Claim C7: for every buffer, every row index `cy < numrows` and every
cursor column `0 ≤ cx ≤ row.size`, splitting at the cursor
(`editorInsertNewline`) and then merging the freshly created row back into
its predecessor (`editorDelChar` at the new cursor position) restores every
row's text exactly, restores `numrows`, and puts the cursor back at the
original column on the original row. -/
theorem claim_C7 (E : EState) (hcy0 : 0 ≤ E.cy)
    (hcy : E.cy < (E.rows.length : Int)) (hcx0 : 0 ≤ E.cx)
    (hcx : E.cx ≤ ((E.rows.getD E.cy.toNat default).chars.length : Int)) :
    (splitMerge E).rows.map Erow.chars = E.rows.map Erow.chars ∧
    (splitMerge E).rows.length = E.rows.length ∧
    (splitMerge E).cy = E.cy ∧ (splitMerge E).cx = E.cx := by
  rcases eq_or_lt_of_le hcx0 with h0 | h0
  · exact splitMerge_zero E hcy0 hcy h0.symm
  · exact splitMerge_pos E hcy0 hcy h0 hcx

/-- Witness for C7 on the row `hi` with the cursor at column 1. -/
theorem claim_C7_witness :
    (splitMerge midCursorState).rows.map Erow.chars =
      midCursorState.rows.map Erow.chars ∧
    (splitMerge midCursorState).cx = midCursorState.cx :=
  ⟨(claim_C7 midCursorState (by decide) (by decide) (by decide) (by decide)).1,
   (claim_C7 midCursorState (by decide) (by decide) (by decide) (by decide)).2.2.2⟩
